import Mathlib

/-!
Shallow embedding of the glyph layout and rasterization-compositing engine of
the Tamil LED text generator (src/app.py), together with theorems settling the
specification claims about it.

Conventions of the embedding:
* 26.6 fixed-point quantities from the shaping engine are integers; the source
  divides them by 64.0 on ingestion, modelled here as exact division in ℚ.
* Real-valued pixel quantities (pen position, baseline, metrics) are ℚ.
* numpy grids are lists of rows (lists of ℕ), row-major, matching the
  canvas[y, x] indexing of the source.
* External collaborator outputs (HarfBuzz glyph positions, FreeType bitmaps
  and metrics) are inputs to the embedded functions.
-/

namespace TamilLed

/-- RGB color triple. -/
abbrev RGB : Type := ℕ × ℕ × ℕ

/-- A shaped glyph position from the shaping engine, in 26.6 fixed point
(source: pos.x_advance, pos.x_offset, pos.y_offset). -/
structure GlyphPos where
  x_advance : ℤ
  x_offset : ℤ
  y_offset : ℤ
deriving Repr, DecidableEq

/-- One glyph of a shaped run: its position data plus the rasterizer output
used for it (source: slot.bitmap width/rows/pitch/buffer and
slot.bitmap_left / slot.bitmap_top). -/
structure ShapedGlyph where
  pos : GlyphPos
  width : ℕ
  rows : ℕ
  pitch : ℕ
  buffer : ℕ → ℕ
  bitmap_left : ℤ
  bitmap_top : ℤ

/-- Horizontal alignment mode (source: align argument). -/
inductive Align where
  | left
  | right
  | center
deriving Repr, DecidableEq

/-- A dense row-major grid of natural-number pixel values (numpy 2-d array). -/
abbrev Grid : Type := List (List ℕ)

/-- Read cell (y, x) of a grid, 0 outside bounds. -/
def getCell (g : Grid) (y x : ℕ) : ℕ := (g.getD y []).getD x 0

/-- Write value v at cell (y, x) of a grid (no-op outside bounds), modelling
out[y][c] = v. -/
def setCell (g : Grid) (y x v : ℕ) : Grid := g.set y ((g.getD y []).set x v)

/-- The value written for one bit: 1 if (b AND (1 shifted left by 7 - bit)) is
nonzero else 0 (source: mask = 1 << (7 - bit); 1 if (b & mask) else 0). -/
def bitVal (b bit : ℕ) : ℕ := if b &&& (1 <<< (7 - bit)) ≠ 0 then 1 else 0

/-- Inner loop of unpack_mono_bitmap over the bits of one packed byte
(source: for bit in range(min(8, width - byte_index * 8))). -/
def unpackByte (y byte_index width : ℕ) (b : ℕ) (out : Grid) : Grid :=
  (List.range (min 8 (width - byte_index * 8))).foldl
    (fun out bit => setCell out y (byte_index * 8 + bit) (bitVal b bit)) out

/-- Middle loop of unpack_mono_bitmap over the bytes of one row
(source: for byte_index in range(pitch): b = buffer[rowstart + byte_index]). -/
def unpackRow (y width pitch : ℕ) (buffer : ℕ → ℕ) (out : Grid) : Grid :=
  (List.range pitch).foldl
    (fun out byte_index => unpackByte y byte_index width (buffer (y * pitch + byte_index)) out)
    out

/-- unpack_mono_bitmap of the source: decode a FreeType monochrome bitmap
(width, rows, pitch, packed byte buffer) into a rows × width grid of 0/1,
starting from np.zeros((rows, width)). -/
def unpack_mono_bitmap (width rows pitch : ℕ) (buffer : ℕ → ℕ) : Grid :=
  (List.range rows).foldl (fun out y => unpackRow y width pitch buffer out)
    (List.replicate rows (List.replicate width 0))

/-- Total advance of a shaped run in pixel units
(source: x_advance_total += pos.x_advance / 64.0). -/
def total_advance (run : List ShapedGlyph) : ℚ :=
  (run.map (fun g => (g.pos.x_advance : ℚ) / 64)).sum

/-- Initial pen position by alignment (source lines 130-136 and 248-254). -/
def initial_pen_x (align : Align) (width margin x_advance_total : ℚ) : ℚ :=
  match align with
  | .left => margin
  | .right => max margin (width - margin - x_advance_total)
  | .center => max margin ((width - x_advance_total) / 2)

/-- Per-glyph pen advance (source: pen_x += x_advance where
x_advance = pos.x_advance / 64.0). -/
def pen_step (pen_x : ℚ) (g : ShapedGlyph) : ℚ := pen_x + (g.pos.x_advance : ℚ) / 64

/-- Single-line baseline (source line 139:
baseline = (height + ascender - (-descender)) / 2.0). -/
def baseline_single (height ascender descender : ℚ) : ℚ :=
  (height + ascender - (-descender)) / 2

/-- Multi-line line height (source line 219:
line_height_calc = ascender - descender + line_spacing). -/
def line_height_calc (ascender descender line_spacing : ℚ) : ℚ :=
  ascender - descender + line_spacing

/-- Total text block height (source line 225:
total_text_content_height = len(text_lines) * line_height_calc - line_spacing). -/
def total_text_content_height (line_count : ℕ) (lh line_spacing : ℚ) : ℚ :=
  (line_count : ℚ) * lh - line_spacing

/-- Vertical start of the centered block (source line 226:
start_y_overall = (height - total_text_content_height) / 2.0). -/
def start_y_overall (height total : ℚ) : ℚ := (height - total) / 2

/-- Baseline of line i (source lines 257-258:
current_line_y_offset = start_y_overall + i * line_height_calc;
baseline = current_line_y_offset + ascender). -/
def line_baseline (start_y lh ascender : ℚ) (i : ℕ) : ℚ :=
  (start_y + (i : ℚ) * lh) + ascender

/-- Map over one row with the running column index. -/
def mapRowFrom (f : ℕ → ℕ → ℕ) : ℕ → List ℕ → List ℕ
  | _, [] => []
  | x, v :: l => f x v :: mapRowFrom f (x + 1) l

/-- Map over a grid with running row and column indices. -/
def mapGridFrom (f : ℕ → ℕ → ℕ → ℕ) : ℕ → Grid → Grid
  | _, [] => []
  | y, row :: g => mapRowFrom (f y) 0 row :: mapGridFrom f (y + 1) g

/-- Clip rectangle of a glyph of size w × h placed at integer origin (gx, gy)
against the canvas (source lines 166-169: x0 = max(0, gx); y0 = max(0, gy);
x1 = min(width, gx + w); y1 = min(height, gy + h)). -/
def clip_bounds (width height : ℕ) (gx gy : ℤ) (w h : ℕ) : ℤ × ℤ × ℤ × ℤ :=
  (max 0 gx, max 0 gy, min (width : ℤ) (gx + w), min (height : ℤ) (gy + h))

/-- Blit one unpacked glyph grid onto the canvas with clipping and
maximum-merge (source lines 161-173): a zero-size glyph or an empty clipped
intersection leaves the canvas unchanged; otherwise every canvas cell inside
the clip rectangle becomes max(canvas cell, glyph cell at the offset position),
modelling canvas[y0:y1, x0:x1] = np.maximum(canvas[y0:y1, x0:x1], sub). -/
def composite (width height : ℕ) (canvas glyph_img : Grid) (gx gy : ℤ) : Grid :=
  let h := glyph_img.length
  let w := (glyph_img.headD []).length
  if w = 0 ∨ h = 0 then canvas
  else
    let b := clip_bounds width height gx gy w h
    let x0 := b.1
    let y0 := b.2.1
    let x1 := b.2.2.1
    let y1 := b.2.2.2
    if x0 < x1 ∧ y0 < y1 then
      mapGridFrom (fun y x v =>
        if y0 ≤ (y : ℤ) ∧ (y : ℤ) < y1 ∧ x0 ≤ (x : ℤ) ∧ (x : ℤ) < x1 then
          max v (getCell glyph_img ((y : ℤ) - gy).toNat ((x : ℤ) - gx).toNat)
        else v) 0 canvas
    else canvas

/-- Unpacked coverage grid of a shaped glyph
(source: glyph_img = unpack_mono_bitmap(bmp)). -/
def glyph_grid (g : ShapedGlyph) : Grid :=
  unpack_mono_bitmap g.width g.rows g.pitch g.buffer

/-- Device x origin of a glyph (source line 157:
gx = int(round(pen_x + x_offset + slot.bitmap_left))). -/
def glyph_origin_x (pen_x : ℚ) (g : ShapedGlyph) : ℤ :=
  round (pen_x + (g.pos.x_offset : ℚ) / 64 + (g.bitmap_left : ℚ))

/-- Device y origin of a glyph (source line 158:
gy = int(round(baseline - y_offset - slot.bitmap_top))). -/
def glyph_origin_y (baseline : ℚ) (g : ShapedGlyph) : ℤ :=
  round (baseline - (g.pos.y_offset : ℚ) / 64 - (g.bitmap_top : ℚ))

/-- The per-glyph loop of both renderers (source lines 144-175 and 261-289):
unpack, place with clipping and maximum-merge, then advance the pen; returns
the final canvas and pen position. -/
def render_line_glyphs (width height : ℕ) (baseline : ℚ) :
    Grid → ℚ → List ShapedGlyph → Grid × ℚ
  | canvas, pen_x, [] => (canvas, pen_x)
  | canvas, pen_x, g :: rest =>
      let canvas2 := composite width height canvas (glyph_grid g)
        (glyph_origin_x pen_x g) (glyph_origin_y baseline g)
      render_line_glyphs width height baseline canvas2 (pen_step pen_x g) rest

/-- Color materialization (source lines 177-184 and 291-298): background-color
image with text_color wherever the canvas cell equals 1. -/
def colorize (canvas : Grid) (text_color bg_color : RGB) (width height : ℕ) :
    List (List RGB) :=
  (List.range height).map (fun y =>
    (List.range width).map (fun x =>
      if getCell canvas y x = 1 then text_color else bg_color))

/-- The single-line renderer render_1bit_png_bytes (source lines 88-188), up
to PNG serialization: from the shaped and rasterized run and the face metrics
to the final RGB raster. -/
def render_1bit (run : List ShapedGlyph) (width height : ℕ) (margin : ℚ)
    (align : Align) (ascender descender : ℚ) (text_color bg_color : RGB) :
    List (List RGB) :=
  let x_advance_total := total_advance run
  let pen_x := initial_pen_x align (width : ℚ) margin x_advance_total
  let baseline := baseline_single (height : ℚ) ascender descender
  let canvas : Grid := List.replicate height (List.replicate width 0)
  let res := render_line_glyphs width height baseline canvas pen_x run
  colorize res.1 text_color bg_color width height

/-- One input line of the multi-line renderer: whether the text is blank
after stripping (source: not line.strip()) and its shaped, rasterized run. -/
structure Line where
  blank : Bool
  run : List ShapedGlyph

/-- The per-line loop of render_multiline_text (source lines 228-289): blank
lines are skipped but the running index i still advances; each rendered line
gets its own pen position and baseline and composites onto the shared canvas. -/
def render_lines (width height : ℕ) (margin : ℚ) (align : Align)
    (ascender lh start_y : ℚ) : Grid → ℕ → List Line → Grid
  | canvas, _, [] => canvas
  | canvas, i, l :: rest =>
      if l.blank then
        render_lines width height margin align ascender lh start_y canvas (i + 1) rest
      else
        let pen_x := initial_pen_x align (width : ℚ) margin (total_advance l.run)
        let baseline := line_baseline start_y lh ascender i
        let res := render_line_glyphs width height baseline canvas pen_x l.run
        render_lines width height margin align ascender lh start_y res.1 (i + 1) rest

/-- Canvas produced by render_multiline_text (source lines 190-289) before
color materialization. -/
def render_multiline_canvas (lines : List Line) (width height : ℕ) (margin : ℚ)
    (align : Align) (ascender descender line_spacing : ℚ) : Grid :=
  let lh := line_height_calc ascender descender line_spacing
  let total := total_text_content_height lines.length lh line_spacing
  let start_y := start_y_overall (height : ℚ) total
  render_lines width height margin align ascender lh start_y
    (List.replicate height (List.replicate width 0)) 0 lines

/-- The multi-line renderer render_multiline_text (source lines 190-302), up
to PNG serialization. -/
def render_multiline (lines : List Line) (width height : ℕ) (margin : ℚ)
    (align : Align) (ascender descender line_spacing : ℚ)
    (text_color bg_color : RGB) : List (List RGB) :=
  colorize (render_multiline_canvas lines width height margin align ascender descender line_spacing)
    text_color bg_color width height

/-- Number of set (nonzero) pixels of a grid. -/
def countSet (g : Grid) : ℕ := (g.map (fun row => row.countP (fun v => v != 0))).sum

/-- Read pixel (y, x) of an RGB raster, black outside bounds. -/
def getPixel (img : List (List RGB)) (y x : ℕ) : RGB := (img.getD y []).getD x (0, 0, 0)

/-- The successive pen positions of the per-glyph loop: the pen before the
first glyph, then the pen after each glyph. -/
def pen_trajectory (pen0 : ℚ) : List ShapedGlyph → List ℚ
  | [] => [pen0]
  | g :: rest => pen0 :: pen_trajectory (pen_step pen0 g) rest

/-- A grid of exactly the stated number of rows, each of the stated width. -/
def wfGrid (g : Grid) (rows width : ℕ) : Prop :=
  g.length = rows ∧ ∀ i, i < rows → (g.getD i []).length = width

/-! ## Basic grid lemmas -/

theorem getCell_replicate_zero (rows width y x : ℕ) :
    getCell (List.replicate rows (List.replicate width 0)) y x = 0 := by
  simp only [getCell, List.getD_eq_getElem?_getD, List.getElem?_replicate]
  split
  · simp only [Option.getD_some]
    rw [List.getElem?_replicate]
    split <;> simp
  · simp

theorem wfGrid_replicate (rows width : ℕ) :
    wfGrid (List.replicate rows (List.replicate width 0)) rows width := by
  refine ⟨by simp, fun i hi => ?_⟩
  rw [List.getD_eq_getElem?_getD, List.getElem?_replicate, if_pos hi, Option.getD_some,
    List.length_replicate]

theorem wfGrid_setCell {g : Grid} {rows width : ℕ} (y x v : ℕ) (hwf : wfGrid g rows width) :
    wfGrid (setCell g y x v) rows width := by
  obtain ⟨hlen, hrow⟩ := hwf
  refine ⟨by simp [setCell, hlen], fun i hi => ?_⟩
  unfold setCell
  rcases eq_or_ne i y with rfl | hne
  · have hylen : i < g.length := by omega
    rw [List.getD_eq_getElem?_getD, List.getElem?_set_self hylen, Option.getD_some,
      List.length_set]
    exact hrow i hi
  · rw [List.getD_eq_getElem?_getD, List.getElem?_set_ne (Ne.symm hne),
      ← List.getD_eq_getElem?_getD]
    exact hrow i hi

theorem getCell_setCell {g : Grid} {rows width : ℕ} (y x v : ℕ) (hwf : wfGrid g rows width)
    (hy : y < rows) (hx : x < width) (i j : ℕ) :
    getCell (setCell g y x v) i j = if i = y ∧ j = x then v else getCell g i j := by
  obtain ⟨hlen, hrow⟩ := hwf
  unfold getCell setCell
  rcases eq_or_ne i y with rfl | hne
  · have hylen : i < g.length := by omega
    rw [List.getD_eq_getElem?_getD (l := g.set i ((g.getD i []).set x v)),
      List.getElem?_set_self hylen, Option.getD_some]
    rcases eq_or_ne j x with rfl | hjx
    · have hxlen : j < (g.getD i []).length := by rw [hrow i hy]; omega
      rw [List.getD_eq_getElem?_getD, List.getElem?_set_self hxlen, Option.getD_some,
        if_pos ⟨rfl, rfl⟩]
    · rw [List.getD_eq_getElem?_getD, List.getElem?_set_ne (Ne.symm hjx),
        ← List.getD_eq_getElem?_getD, if_neg (by tauto)]
  · rw [List.getD_eq_getElem?_getD (l := g.set y ((g.getD y []).set x v)),
      List.getElem?_set_ne (Ne.symm hne), ← List.getD_eq_getElem?_getD,
      if_neg (by tauto)]

/-! ## Characterization of the bitmap unpacker -/

theorem wfGrid_foldRange_setCell {rows width : ℕ} (y c0 : ℕ) (v : ℕ → ℕ) :
    ∀ (k : ℕ) (g : Grid), wfGrid g rows width →
      wfGrid ((List.range k).foldl (fun out bit => setCell out y (c0 + bit) (v bit)) g)
        rows width := by
  intro k
  induction k with
  | zero => intro g hg; simpa using hg
  | succ k ih =>
      intro g hg
      rw [List.range_succ, List.foldl_append]
      simp only [List.foldl_cons, List.foldl_nil]
      exact wfGrid_setCell _ _ _ (ih g hg)

theorem getCell_foldRange_setCell {rows width : ℕ} (y c0 : ℕ) (v : ℕ → ℕ) :
    ∀ (k : ℕ) (g : Grid), wfGrid g rows width → y < rows → (∀ j, j < k → c0 + j < width) →
      ∀ i j, getCell ((List.range k).foldl (fun out bit => setCell out y (c0 + bit) (v bit)) g) i j
        = if i = y ∧ c0 ≤ j ∧ j < c0 + k then v (j - c0) else getCell g i j := by
  intro k
  induction k with
  | zero =>
      intro g hg hy hk i j
      simp only [List.range_zero, List.foldl_nil]
      rw [if_neg (by omega)]
  | succ k ih =>
      intro g hg hy hk i j
      rw [List.range_succ, List.foldl_append]
      simp only [List.foldl_cons, List.foldl_nil]
      rw [getCell_setCell y (c0 + k) (v k) (wfGrid_foldRange_setCell y c0 v k g hg) hy
        (hk k (by omega)) i j]
      rw [ih g hg hy (fun j hj => hk j (by omega)) i j]
      by_cases hnew : i = y ∧ j = c0 + k
      · rw [if_pos hnew, if_pos (show i = y ∧ c0 ≤ j ∧ j < c0 + (k + 1) by omega)]
        congr 1
        omega
      · rw [if_neg hnew]
        by_cases hold : i = y ∧ c0 ≤ j ∧ j < c0 + k
        · rw [if_pos hold, if_pos (show i = y ∧ c0 ≤ j ∧ j < c0 + (k + 1) by omega)]
        · rw [if_neg hold, if_neg (show ¬(i = y ∧ c0 ≤ j ∧ j < c0 + (k + 1)) by omega)]

theorem wfGrid_unpackByte {rows width : ℕ} (y bi b : ℕ) (g : Grid)
    (hg : wfGrid g rows width) : wfGrid (unpackByte y bi width b g) rows width := by
  unfold unpackByte
  exact wfGrid_foldRange_setCell y (bi * 8) (bitVal b) _ g hg

theorem getCell_unpackByte {rows width : ℕ} (y bi b : ℕ) (g : Grid)
    (hg : wfGrid g rows width) (hy : y < rows) (i j : ℕ) :
    getCell (unpackByte y bi width b g) i j
      = if i = y ∧ bi * 8 ≤ j ∧ j < bi * 8 + min 8 (width - bi * 8)
        then bitVal b (j - bi * 8) else getCell g i j := by
  unfold unpackByte
  exact getCell_foldRange_setCell y (bi * 8) (bitVal b) _ g hg hy (fun j hj => by omega) i j

theorem unpackRowAux_spec {rows width pitch : ℕ} (buffer : ℕ → ℕ) (y : ℕ) :
    ∀ (m : ℕ) (g : Grid), wfGrid g rows width → y < rows →
      wfGrid ((List.range m).foldl
          (fun out byte_index => unpackByte y byte_index width (buffer (y * pitch + byte_index)) out)
          g) rows width ∧
      ∀ i j, getCell ((List.range m).foldl
          (fun out byte_index => unpackByte y byte_index width (buffer (y * pitch + byte_index)) out)
          g) i j
        = if i = y ∧ j < width ∧ j < m * 8
          then bitVal (buffer (y * pitch + j / 8)) (j % 8) else getCell g i j := by
  intro m
  induction m with
  | zero =>
      intro g hg hy
      refine ⟨by simpa using hg, fun i j => ?_⟩
      simp only [List.range_zero, List.foldl_nil]
      rw [if_neg (by omega)]
  | succ m ih =>
      intro g hg hy
      obtain ⟨ihwf, ihcell⟩ := ih g hg hy
      rw [List.range_succ, List.foldl_append]
      simp only [List.foldl_cons, List.foldl_nil]
      refine ⟨wfGrid_unpackByte y m _ _ ihwf, fun i j => ?_⟩
      rw [getCell_unpackByte y m _ _ ihwf hy i j, ihcell i j]
      by_cases hnew : i = y ∧ m * 8 ≤ j ∧ j < m * 8 + min 8 (width - m * 8)
      · rw [if_pos hnew, if_pos (show i = y ∧ j < width ∧ j < (m + 1) * 8 by omega)]
        have hdiv : j / 8 = m := by omega
        have hmod : j % 8 = j - m * 8 := by omega
        rw [hdiv, hmod]
      · rw [if_neg hnew]
        by_cases hold : i = y ∧ j < width ∧ j < m * 8
        · rw [if_pos hold, if_pos (show i = y ∧ j < width ∧ j < (m + 1) * 8 by omega)]
        · rw [if_neg hold, if_neg (show ¬(i = y ∧ j < width ∧ j < (m + 1) * 8) by omega)]

theorem unpackRow_spec {rows width pitch : ℕ} (buffer : ℕ → ℕ) (y : ℕ) (g : Grid)
    (hg : wfGrid g rows width) (hy : y < rows) :
    wfGrid (unpackRow y width pitch buffer g) rows width ∧
    ∀ i j, getCell (unpackRow y width pitch buffer g) i j
      = if i = y ∧ j < width ∧ j < pitch * 8
        then bitVal (buffer (y * pitch + j / 8)) (j % 8) else getCell g i j := by
  unfold unpackRow
  exact unpackRowAux_spec buffer y pitch g hg hy

theorem unpackAux_spec {rows width pitch : ℕ} (buffer : ℕ → ℕ) :
    ∀ (m : ℕ), m ≤ rows → ∀ (g : Grid), wfGrid g rows width →
      wfGrid ((List.range m).foldl (fun out y => unpackRow y width pitch buffer out) g)
        rows width ∧
      ∀ i j, getCell ((List.range m).foldl (fun out y => unpackRow y width pitch buffer out) g) i j
        = if i < m ∧ j < width ∧ j < pitch * 8
          then bitVal (buffer (i * pitch + j / 8)) (j % 8) else getCell g i j := by
  intro m
  induction m with
  | zero =>
      intro _ g hg
      refine ⟨by simpa using hg, fun i j => ?_⟩
      simp only [List.range_zero, List.foldl_nil]
      rw [if_neg (by omega)]
  | succ m ih =>
      intro hm g hg
      obtain ⟨ihwf, ihcell⟩ := ih (by omega) g hg
      rw [List.range_succ, List.foldl_append]
      simp only [List.foldl_cons, List.foldl_nil]
      obtain ⟨rowwf, rowcell⟩ := @unpackRow_spec rows width pitch buffer m _ ihwf (by omega)
      refine ⟨rowwf, fun i j => ?_⟩
      rw [rowcell i j, ihcell i j]
      by_cases hnew : i = m ∧ j < width ∧ j < pitch * 8
      · rw [if_pos hnew, if_pos (show i < m + 1 ∧ j < width ∧ j < pitch * 8 by omega)]
        rw [hnew.1]
      · rw [if_neg hnew]
        by_cases hold : i < m ∧ j < width ∧ j < pitch * 8
        · rw [if_pos hold, if_pos (show i < m + 1 ∧ j < width ∧ j < pitch * 8 by omega)]
        · rw [if_neg hold, if_neg (show ¬(i < m + 1 ∧ j < width ∧ j < pitch * 8) by omega)]

theorem unpack_mono_bitmap_spec (width rows pitch : ℕ) (buffer : ℕ → ℕ) :
    wfGrid (unpack_mono_bitmap width rows pitch buffer) rows width ∧
    ∀ i j, getCell (unpack_mono_bitmap width rows pitch buffer) i j
      = if i < rows ∧ j < width ∧ j < pitch * 8
        then bitVal (buffer (i * pitch + j / 8)) (j % 8) else 0 := by
  unfold unpack_mono_bitmap
  obtain ⟨hwf, hcell⟩ := @unpackAux_spec rows width pitch buffer
    rows le_rfl (List.replicate rows (List.replicate width 0)) (wfGrid_replicate rows width)
  refine ⟨hwf, fun i j => ?_⟩
  rw [hcell i j, getCell_replicate_zero]

theorem bitVal_eq_testBit (b k : ℕ) :
    bitVal b k = if Nat.testBit b (7 - k) then 1 else 0 := by
  unfold bitVal
  rw [Nat.one_shiftLeft, Nat.and_two_pow]
  cases h : Nat.testBit b (7 - k) <;> simp [h]

/-! ## Monotonicity of the maximum-merge compositor -/

theorem getD_mapRowFrom_le (f : ℕ → ℕ → ℕ) (hf : ∀ x v, v ≤ f x v) :
    ∀ (row : List ℕ) (x0 x : ℕ), row.getD x 0 ≤ (mapRowFrom f x0 row).getD x 0 := by
  intro row
  induction row with
  | nil => intro x0 x; simp [mapRowFrom]
  | cons v l ih =>
      intro x0 x
      cases x with
      | zero => simpa [mapRowFrom] using hf x0 v
      | succ x => simpa [mapRowFrom] using ih (x0 + 1) x

theorem getCell_mapGridFrom_le (f : ℕ → ℕ → ℕ → ℕ) (hf : ∀ y x v, v ≤ f y x v) :
    ∀ (g : Grid) (y0 y x : ℕ), getCell g y x ≤ getCell (mapGridFrom f y0 g) y x := by
  intro g
  induction g with
  | nil => intro y0 y x; simp [mapGridFrom]
  | cons row rest ih =>
      intro y0 y x
      cases y with
      | zero => simpa [mapGridFrom, getCell] using getD_mapRowFrom_le (f y0) (hf y0) row 0 x
      | succ y => simpa [mapGridFrom, getCell] using ih (y0 + 1) y x

theorem countP_mapRowFrom_le (f : ℕ → ℕ → ℕ) (hf : ∀ x v, v ≤ f x v) :
    ∀ (row : List ℕ) (x0 : ℕ),
      row.countP (fun v => v != 0) ≤ (mapRowFrom f x0 row).countP (fun v => v != 0) := by
  intro row
  induction row with
  | nil => intro x0; simp [mapRowFrom]
  | cons v l ih =>
      intro x0
      simp only [mapRowFrom, List.countP_cons]
      have h1 := ih (x0 + 1)
      have h2 : (if (v != 0) = true then 1 else 0) ≤ (if (f x0 v != 0) = true then 1 else 0) := by
        by_cases hv : v = 0
        · subst hv; simp
        · have hfv : f x0 v ≠ 0 := by have := hf x0 v; omega
          simp [hv, hfv]
      omega

theorem countSet_mapGridFrom_le (f : ℕ → ℕ → ℕ → ℕ) (hf : ∀ y x v, v ≤ f y x v) :
    ∀ (g : Grid) (y0 : ℕ), countSet g ≤ countSet (mapGridFrom f y0 g) := by
  intro g
  induction g with
  | nil => intro y0; simp [mapGridFrom]
  | cons row rest ih =>
      intro y0
      simp only [mapGridFrom, countSet, List.map_cons, List.sum_cons]
      have h1 := ih (y0 + 1)
      have h2 := countP_mapRowFrom_le (f y0) (hf y0) row 0
      simp only [countSet] at h1
      omega

theorem getCell_composite_le (width height : ℕ) (canvas glyph : Grid) (gx gy : ℤ) (y x : ℕ) :
    getCell canvas y x ≤ getCell (composite width height canvas glyph gx gy) y x := by
  unfold composite
  dsimp only
  split
  · exact le_rfl
  · split
    · refine getCell_mapGridFrom_le _ (fun y x v => ?_) canvas 0 y x
      dsimp only
      split
      · exact le_max_left _ _
      · exact le_rfl
    · exact le_rfl

theorem countSet_composite_le (width height : ℕ) (canvas glyph : Grid) (gx gy : ℤ) :
    countSet canvas ≤ countSet (composite width height canvas glyph gx gy) := by
  unfold composite
  dsimp only
  split
  · exact le_rfl
  · split
    · refine countSet_mapGridFrom_le _ (fun y x v => ?_) canvas 0
      dsimp only
      split
      · exact le_max_left _ _
      · exact le_rfl
    · exact le_rfl

theorem composite_zero_size (width height : ℕ) (canvas glyph : Grid) (gx gy : ℤ)
    (h : (glyph.headD []).length = 0 ∨ glyph.length = 0) :
    composite width height canvas glyph gx gy = canvas := by
  unfold composite
  dsimp only
  rw [if_pos h]

theorem composite_empty_clip (width height : ℕ) (canvas glyph : Grid) (gx gy : ℤ)
    (h : ¬((clip_bounds width height gx gy (glyph.headD []).length glyph.length).1
            < (clip_bounds width height gx gy (glyph.headD []).length glyph.length).2.2.1
          ∧ (clip_bounds width height gx gy (glyph.headD []).length glyph.length).2.1
            < (clip_bounds width height gx gy (glyph.headD []).length glyph.length).2.2.2)) :
    composite width height canvas glyph gx gy = canvas := by
  by_cases hz : (glyph.headD []).length = 0 ∨ glyph.length = 0
  · exact composite_zero_size width height canvas glyph gx gy hz
  · unfold composite
    dsimp only
    rw [if_neg hz, if_neg h]

/-! ## Color materialization -/

theorem length_colorize (canvas : Grid) (fg bg : RGB) (W H : ℕ) :
    (colorize canvas fg bg W H).length = H := by
  simp [colorize]

theorem getPixel_colorize (canvas : Grid) (fg bg : RGB) (W H x y : ℕ)
    (hx : x < W) (hy : y < H) :
    getPixel (colorize canvas fg bg W H) y x
      = if getCell canvas y x = 1 then fg else bg := by
  have hrow : (colorize canvas fg bg W H).getD y []
      = (List.range W).map (fun x => if getCell canvas y x = 1 then fg else bg) := by
    unfold colorize
    rw [List.getD_eq_getElem _ _ (by simpa using hy), List.getElem_map, List.getElem_range]
  unfold getPixel
  rw [hrow, List.getD_eq_getElem _ _ (by simpa using hx), List.getElem_map, List.getElem_range]

theorem colorize_replicate_zero (W H : ℕ) (fg bg : RGB) :
    colorize (List.replicate H (List.replicate W 0)) fg bg W H
      = List.replicate H (List.replicate W bg) := by
  unfold colorize
  rw [List.eq_replicate_iff]
  refine ⟨by simp, fun row hrow => ?_⟩
  simp only [List.mem_map] at hrow
  obtain ⟨y, hy, rfl⟩ := hrow
  rw [List.eq_replicate_iff]
  refine ⟨by simp, fun p hp => ?_⟩
  simp only [List.mem_map] at hp
  obtain ⟨x, hx, rfl⟩ := hp
  rw [getCell_replicate_zero]
  simp

/-! ## Pen trajectory -/

theorem pen_trajectory_head (pen0 : ℚ) (run : List ShapedGlyph) :
    (pen_trajectory pen0 run).head? = some pen0 := by
  cases run <;> rfl

theorem pen_trajectory_getLastD_default (run : List ShapedGlyph) (pen0 d : ℚ) :
    (pen_trajectory pen0 run).getLastD d = (pen_trajectory pen0 run).getLastD pen0 := by
  cases run with
  | nil => simp [pen_trajectory]
  | cons g rest => simp only [pen_trajectory, List.getLastD_cons]

theorem render_line_glyphs_pen (W H : ℕ) (b : ℚ) :
    ∀ (run : List ShapedGlyph) (canvas : Grid) (pen0 : ℚ),
      (render_line_glyphs W H b canvas pen0 run).2 = (pen_trajectory pen0 run).getLastD pen0 := by
  intro run
  induction run with
  | nil => intro canvas pen0; rfl
  | cons g rest ih =>
      intro canvas pen0
      show (render_line_glyphs W H b _ (pen_step pen0 g) rest).2 = _
      rw [ih]
      simp only [pen_trajectory, List.getLastD_cons]
      exact (pen_trajectory_getLastD_default rest (pen_step pen0 g) pen0).symm

theorem pen_trajectory_chain (run : List ShapedGlyph) :
    ∀ pen0 : ℚ, (∀ g ∈ run, 0 ≤ g.pos.x_advance) →
      List.Chain' (fun a b => a ≤ b) (pen_trajectory pen0 run) := by
  induction run with
  | nil => intro pen0 _; simp [pen_trajectory]
  | cons g rest ih =>
      intro pen0 h
      refine List.chain'_cons'.2 ⟨fun q hq => ?_,
        ih (pen_step pen0 g) (fun g2 hg2 => h g2 (List.mem_cons_of_mem _ hg2))⟩
      rw [pen_trajectory_head] at hq
      simp only [Option.mem_def, Option.some.injEq] at hq
      subst hq
      unfold pen_step
      have hadv : (0 : ℚ) ≤ (g.pos.x_advance : ℚ) / 64 := by
        have := h g (List.mem_cons_self g rest)
        positivity
      linarith

/-! ## Blank lines in the multi-line renderer -/

theorem render_lines_blank (W H : ℕ) (M : ℚ) (align : Align) (asc lh sy : ℚ)
    (l : Line) (hl : l.blank = true) (post : List Line) :
    ∀ (pre : List Line) (canvas : Grid) (i : ℕ),
      render_lines W H M align asc lh sy canvas i (pre ++ l :: post)
        = render_lines W H M align asc lh sy canvas i (pre ++ (⟨false, []⟩ : Line) :: post) := by
  intro pre
  induction pre with
  | nil =>
      intro canvas i
      simp only [List.nil_append, render_lines]
      rw [if_pos hl, if_neg (by simp)]
      rfl
  | cons p pre ih =>
      intro canvas i
      simp only [List.cons_append, render_lines]
      by_cases hp : p.blank = true
      · rw [if_pos hp, if_pos hp]
        exact ih canvas (i + 1)
      · rw [if_neg hp, if_neg hp]
        exact ih _ (i + 1)

/-! ## Claim theorems -/

/-- C1 counterexample: the claimed single-line baseline formula
(canvas_height + ascender + |descender|) / 2 does not match the code: at
canvas height 64, ascender 16, descender -4 the code computes baseline 38
while the claimed formula gives 42. -/
theorem C1_counterexample :
    baseline_single 64 16 (-4) ≠ (64 + 16 + |(-4 : ℚ)|) / 2 := by
  rw [abs_of_nonpos (by norm_num : (-4 : ℚ) ≤ 0)]
  norm_num [baseline_single]

/-- C1 amended: for a single-line render, the baseline computed before
compositing equals (canvas_height + ascender + descender) / 2, which for
non-positive descender (FreeType convention) is
(canvas_height + ascender - |descender|) / 2; this vertically centers the
ascent-plus-descent glyph block: the gap above the block top, baseline -
ascender, equals the gap below the block bottom, canvas_height - (baseline -
descender). baseline_single takes only the canvas height and the face
metrics, so the baseline is independent of the number of glyphs in the run. -/
theorem C1_baseline_centered (H asc desc : ℚ) (hdesc : desc ≤ 0) :
    baseline_single H asc desc = (H + asc + desc) / 2 ∧
    baseline_single H asc desc = (H + asc - |desc|) / 2 ∧
    baseline_single H asc desc - asc = H - (baseline_single H asc desc - desc) := by
  have habs : |desc| = -desc := abs_of_nonpos hdesc
  refine ⟨by unfold baseline_single; ring, ?_, by unfold baseline_single; ring⟩
  rw [habs]
  unfold baseline_single
  ring

/-- Witness for C1_baseline_centered at canvas height 64, ascender 16,
descender -4. -/
theorem C1_baseline_centered_witness :
    baseline_single 64 16 (-4) = (64 + 16 + (-4)) / 2 :=
  (C1_baseline_centered 64 16 (-4) (by norm_num)).1

/-- C2: for every canvas width W, margin M and run total advance A, the
initial pen position is M for left alignment, max M (W - M - A) for right
alignment and max M ((W - A) / 2) for center alignment, and it is at least M
for every alignment, including the overflow case A > W; initial_pen_x is the
pen computation used by both the single-line and the multi-line renderer. -/
theorem C2_initial_pen (W M A : ℚ) :
    initial_pen_x .left W M A = M ∧
    initial_pen_x .right W M A = max M (W - M - A) ∧
    initial_pen_x .center W M A = max M ((W - A) / 2) ∧
    ∀ align : Align, M ≤ initial_pen_x align W M A := by
  refine ⟨rfl, rfl, rfl, fun align => ?_⟩
  cases align
  · exact le_rfl
  · exact le_max_left _ _
  · exact le_max_left _ _

/-- C3: multi-line vertical centering: with non-positive descender,
line_height = ascender + |descender| + line_spacing; the total block height
is line_count * line_height - line_spacing; start_y = (canvas_height -
block height) / 2; the baseline of line i is start_y + i * line_height +
ascender; and at the concrete fixture line_height 20, spacing 2, canvas
height 64, ascender 16 (descender -2), 2 lines: block height 38, start_y 13,
line-0 baseline 29, line-1 baseline 49. -/
theorem C3_multiline_centering (asc desc S H : ℚ) (n i : ℕ) (hdesc : desc ≤ 0) :
    line_height_calc asc desc S = asc + |desc| + S ∧
    total_text_content_height n (line_height_calc asc desc S) S
      = (n : ℚ) * line_height_calc asc desc S - S ∧
    start_y_overall H (total_text_content_height n (line_height_calc asc desc S) S)
      = (H - ((n : ℚ) * line_height_calc asc desc S - S)) / 2 ∧
    line_baseline (start_y_overall H (total_text_content_height n (line_height_calc asc desc S) S))
        (line_height_calc asc desc S) asc i
      = start_y_overall H (total_text_content_height n (line_height_calc asc desc S) S)
        + (i : ℚ) * line_height_calc asc desc S + asc ∧
    line_height_calc 16 (-2) 2 = 20 ∧
    total_text_content_height 2 20 2 = 38 ∧
    start_y_overall 64 38 = 13 ∧
    line_baseline 13 20 16 0 = 29 ∧
    line_baseline 13 20 16 1 = 49 := by
  have habs : |desc| = -desc := abs_of_nonpos hdesc
  refine ⟨by rw [habs]; unfold line_height_calc; ring, rfl, rfl,
    by unfold line_baseline; ring, by norm_num [line_height_calc],
    by norm_num [total_text_content_height], by norm_num [start_y_overall],
    by norm_num [line_baseline], by norm_num [line_baseline]⟩

/-- Witness for C3_multiline_centering at ascender 16, descender -2,
spacing 2, canvas height 64, 2 lines, line index 1. -/
theorem C3_multiline_centering_witness :
    line_height_calc 16 (-2) 2 = 16 + |(-2 : ℚ)| + 2 :=
  (C3_multiline_centering 16 (-2) 2 64 2 1 (by norm_num)).1

/-- C4: a whitespace-only line contributes no glyphs but still occupies a row
slot: the multi-line canvas over pre ++ blank :: post equals the canvas where
the blank slot is replaced by a non-blank line with an empty glyph run, so
every other line keeps its index, and hence its baseline, computed over the
full list length; moreover the renderer derives start_y from the full line
count, blanks included. -/
theorem C4_blank_line_slot (W H : ℕ) (M : ℚ) (align : Align) (asc desc S : ℚ)
    (pre post : List Line) (l : Line) (hl : l.blank = true) :
    render_multiline_canvas (pre ++ l :: post) W H M align asc desc S
      = render_multiline_canvas (pre ++ (⟨false, []⟩ : Line) :: post) W H M align asc desc S ∧
    (pre ++ l :: post).length = (pre ++ (⟨false, []⟩ : Line) :: post).length ∧
    render_multiline_canvas (pre ++ l :: post) W H M align asc desc S
      = render_lines W H M align asc (line_height_calc asc desc S)
          (start_y_overall (H : ℚ)
            (total_text_content_height (pre ++ l :: post).length (line_height_calc asc desc S) S))
          (List.replicate H (List.replicate W 0)) 0 (pre ++ l :: post) := by
  have hlen : (pre ++ l :: post).length = (pre ++ (⟨false, []⟩ : Line) :: post).length := by
    simp
  refine ⟨?_, hlen, rfl⟩
  unfold render_multiline_canvas
  dsimp only
  rw [← hlen]
  exact render_lines_blank W H M align asc _ _ l hl post pre _ 0

/-- Witness for C4_blank_line_slot with a single blank line. -/
theorem C4_blank_line_slot_witness :
    render_multiline_canvas [⟨true, []⟩] 2 2 0 .left 1 (-1) 0
      = render_multiline_canvas [(⟨false, []⟩ : Line)] 2 2 0 .left 1 (-1) 0 :=
  (C4_blank_line_slot 2 2 0 .left 1 (-1) 0 [] [] ⟨true, []⟩ rfl).1

/-- C5: the bitmap unpacker returns a grid of exactly rows × width cells in
which cell (y, i) equals bit (7 - i % 8) (MSB first) of byte y * pitch +
i / 8 whenever width ≤ pitch * 8, padding bits at columns beyond width being
ignored; concretely byte 176 (binary 10110000) at width 4 unpacks to
[1,0,1,1], and with pitch 2 (16 bits per row) and width 10 the padding bits
10-15 are ignored: a second byte 63 (bits 10-15 set) yields no set cells
while a second byte 192 (bits 8-9 set) sets exactly columns 8 and 9. -/
theorem C5_unpack_correct (width rows pitch : ℕ) (buffer : ℕ → ℕ)
    (hp : width ≤ pitch * 8) :
    (unpack_mono_bitmap width rows pitch buffer).length = rows ∧
    (∀ y, y < rows → ((unpack_mono_bitmap width rows pitch buffer).getD y []).length = width) ∧
    (∀ y i, y < rows → i < width →
      getCell (unpack_mono_bitmap width rows pitch buffer) y i
        = if Nat.testBit (buffer (y * pitch + i / 8)) (7 - i % 8) then 1 else 0) ∧
    unpack_mono_bitmap 4 1 1 (fun _ => 176) = [[1, 0, 1, 1]] ∧
    unpack_mono_bitmap 10 1 2 (fun j => if j = 0 then 0 else 63)
      = [[0, 0, 0, 0, 0, 0, 0, 0, 0, 0]] ∧
    unpack_mono_bitmap 10 1 2 (fun j => if j = 0 then 0 else 192)
      = [[0, 0, 0, 0, 0, 0, 0, 0, 1, 1]] := by
  obtain ⟨⟨hlen, hrow⟩, hcell⟩ := unpack_mono_bitmap_spec width rows pitch buffer
  refine ⟨hlen, hrow, fun y i hy hi => ?_, by decide, by decide, by decide⟩
  rw [hcell y i, if_pos (show y < rows ∧ i < width ∧ i < pitch * 8 from ⟨hy, hi, by omega⟩),
    bitVal_eq_testBit]

/-- Witness for C5_unpack_correct on the byte 176, width 4 example. -/
theorem C5_unpack_correct_witness :
    4 ≤ 1 * 8 ∧
    getCell (unpack_mono_bitmap 4 1 1 (fun _ => 176)) 0 2
      = if Nat.testBit 176 (7 - 2 % 8) then 1 else 0 :=
  ⟨by norm_num,
    (C5_unpack_correct 4 1 1 (fun _ => 176) (by norm_num)).2.2.1 0 2 (by norm_num) (by norm_num)⟩

/-- C6: the maximum-merge composite step is monotonic: a canvas pixel that is
set (nonzero) before a composite step is still set after it, and the count of
set pixels is non-decreasing across every composite step. -/
theorem C6_composite_monotone (W H : ℕ) (canvas glyph : Grid) (gx gy : ℤ) (y x : ℕ)
    (hset : getCell canvas y x ≠ 0) :
    getCell (composite W H canvas glyph gx gy) y x ≠ 0 ∧
    countSet canvas ≤ countSet (composite W H canvas glyph gx gy) := by
  refine ⟨?_, countSet_composite_le W H canvas glyph gx gy⟩
  have hle := getCell_composite_le W H canvas glyph gx gy y x
  omega

/-- Witness for C6_composite_monotone on a 1 × 1 canvas with its pixel set. -/
theorem C6_composite_monotone_witness :
    getCell [[1]] 0 0 ≠ 0 ∧
    (getCell (composite 1 1 [[1]] [[1]] 0 0) 0 0 ≠ 0 ∧
      countSet [[1]] ≤ countSet (composite 1 1 [[1]] [[1]] 0 0)) :=
  ⟨by decide, C6_composite_monotone 1 1 [[1]] [[1]] 0 0 0 0 (by decide)⟩

/-- C7: color materialization: the output raster has height rows of width
pixels each, and pixel (x, y) equals the foreground color exactly where the
canvas cell is set (equals 1) and the background color otherwise, for every
pair of RGB triples including equal foreground and background. -/
theorem C7_colorize (canvas : Grid) (fg bg : RGB) (W H x y : ℕ)
    (hx : x < W) (hy : y < H) :
    (colorize canvas fg bg W H).length = H ∧
    (∀ row ∈ colorize canvas fg bg W H, row.length = W) ∧
    getPixel (colorize canvas fg bg W H) y x
      = if getCell canvas y x = 1 then fg else bg := by
  refine ⟨length_colorize canvas fg bg W H, fun row hrow => ?_,
    getPixel_colorize canvas fg bg W H x y hx hy⟩
  simp only [colorize, List.mem_map] at hrow
  obtain ⟨y2, hy2, rfl⟩ := hrow
  simp

/-- Witness for C7_colorize on a 2 × 1 canvas. -/
theorem C7_colorize_witness :
    getPixel (colorize [[1, 0]] (7, 7, 7) (1, 2, 3) 2 1) 0 0
      = if getCell [[1, 0]] 0 0 = 1 then (7, 7, 7) else (1, 2, 3) :=
  (C7_colorize [[1, 0]] (7, 7, 7) (1, 2, 3) 2 1 0 0 (by decide) (by decide)).2.2

/-- C8 counterexample: the claim says an empty-after-trimming text produces
an input error and no output, but the renderer has no input validation: on
the empty shaped run with a 3 × 2 canvas it returns the complete
background-colored image. -/
theorem C8_counterexample :
    render_1bit [] 3 2 0 .center 12 (-3) (255, 255, 255) (0, 0, 0)
      = List.replicate 2 (List.replicate 3 (0, 0, 0)) := by
  decide

/-- C8 amended: the render entry points perform no input validation: they are
total functions, and on text that is empty after trimming (an empty shaped
run for the single-line renderer; an empty line list or a single blank line
for the multi-line renderer) they return the complete all-background image of
the requested dimensions instead of an error; empty input is filtered out by
the caller before the renderers are invoked. -/
theorem C8_no_input_validation (W H : ℕ) (M S : ℚ) (align : Align) (asc desc : ℚ)
    (fg bg : RGB) (r : List ShapedGlyph) :
    render_1bit [] W H M align asc desc fg bg = List.replicate H (List.replicate W bg) ∧
    render_multiline [] W H M align asc desc S fg bg
      = List.replicate H (List.replicate W bg) ∧
    render_multiline [⟨true, r⟩] W H M align asc desc S fg bg
      = List.replicate H (List.replicate W bg) := by
  refine ⟨?_, ?_, ?_⟩
  · show colorize (List.replicate H (List.replicate W 0)) fg bg W H = _
    exact colorize_replicate_zero W H fg bg
  · show colorize (List.replicate H (List.replicate W 0)) fg bg W H = _
    exact colorize_replicate_zero W H fg bg
  · show colorize (List.replicate H (List.replicate W 0)) fg bg W H = _
    exact colorize_replicate_zero W H fg bg

/-- C9 counterexample: the pen is not non-decreasing for every glyph run: the
source adds x_advance / 64 to the pen unconditionally, so a shaped glyph with
negative x_advance (-64 in 26.6 fixed point) moves the pen from 0 to -1. -/
theorem C9_counterexample :
    (render_line_glyphs 8 8 4 (List.replicate 8 (List.replicate 8 0)) 0
        [⟨⟨-64, 0, 0⟩, 0, 0, 0, fun _ => 0, 0, 0⟩]).2 < 0 := by
  show pen_step 0 _ < 0
  norm_num [pen_step]

/-- C9 amended: when every x_advance of the run is non-negative (as the
shaper produces for the left-to-right runs of this system), the successive
pen positions of a line's glyph loop are non-decreasing; the renderer's final
pen equals the last entry of that trajectory, and each step adds exactly
x_advance / 64, zero-size glyphs included. As literally stated, for every
run, the claim fails for runs containing a negative x_advance. -/
theorem C9_pen_monotone (W H : ℕ) (b pen0 : ℚ) (canvas : Grid) (run : List ShapedGlyph)
    (h : ∀ g ∈ run, 0 ≤ g.pos.x_advance) :
    List.Chain' (fun a c => a ≤ c) (pen_trajectory pen0 run) ∧
    (render_line_glyphs W H b canvas pen0 run).2 = (pen_trajectory pen0 run).getLastD pen0 ∧
    ∀ g : ShapedGlyph, pen_step pen0 g = pen0 + (g.pos.x_advance : ℚ) / 64 :=
  ⟨pen_trajectory_chain run pen0 h, render_line_glyphs_pen W H b run canvas pen0,
    fun _ => rfl⟩

/-- Witness for C9_pen_monotone on a one-glyph run with advance 64. -/
theorem C9_pen_monotone_witness :
    List.Chain' (fun a c => a ≤ c)
      (pen_trajectory 0 [⟨⟨64, 0, 0⟩, 1, 1, 1, fun _ => 0, 0, 0⟩]) :=
  (C9_pen_monotone 8 8 4 0 [[0]] [⟨⟨64, 0, 0⟩, 1, 1, 1, fun _ => 0, 0, 0⟩]
    (fun g hg => by
      rw [List.mem_singleton] at hg
      subst hg
      decide)).1

/-- C10: compositing is memory-safe for arbitrary glyph placements: the clip
bounds x0 = max 0 gx, y0 = max 0 gy, x1 = min W (gx + w), y1 = min H
(gy + h) always satisfy 0 ≤ x0, 0 ≤ y0, x1 ≤ W, y1 ≤ H, 0 ≤ x0 - gx,
x1 - gx ≤ w, 0 ≤ y0 - gy and y1 - gy ≤ h, so all canvas writes in
[y0, y1) × [x0, x1) and all glyph reads in [y0 - gy, y1 - gy) ×
[x0 - gx, x1 - gx) are in bounds; a zero-width or zero-height glyph, or an
empty clipped intersection, leaves the canvas untouched, and the pen still
advances by the glyph's advance in the per-glyph loop. -/
theorem C10_clip_safety (W H w h : ℕ) (gx gy : ℤ) (canvas glyph : Grid) :
    (0 ≤ (clip_bounds W H gx gy w h).1 ∧ 0 ≤ (clip_bounds W H gx gy w h).2.1 ∧
      (clip_bounds W H gx gy w h).2.2.1 ≤ W ∧ (clip_bounds W H gx gy w h).2.2.2 ≤ H ∧
      0 ≤ (clip_bounds W H gx gy w h).1 - gx ∧ (clip_bounds W H gx gy w h).2.2.1 - gx ≤ w ∧
      0 ≤ (clip_bounds W H gx gy w h).2.1 - gy ∧ (clip_bounds W H gx gy w h).2.2.2 - gy ≤ h) ∧
    ((glyph.headD []).length = 0 ∨ glyph.length = 0 →
      composite W H canvas glyph gx gy = canvas) ∧
    (¬((clip_bounds W H gx gy (glyph.headD []).length glyph.length).1
          < (clip_bounds W H gx gy (glyph.headD []).length glyph.length).2.2.1
        ∧ (clip_bounds W H gx gy (glyph.headD []).length glyph.length).2.1
          < (clip_bounds W H gx gy (glyph.headD []).length glyph.length).2.2.2) →
      composite W H canvas glyph gx gy = canvas) ∧
    ∀ (b pen : ℚ) (g : ShapedGlyph),
      (render_line_glyphs W H b canvas pen [g]).2 = pen_step pen g := by
  refine ⟨?_, composite_zero_size W H canvas glyph gx gy,
    composite_empty_clip W H canvas glyph gx gy, fun b pen g => rfl⟩
  unfold clip_bounds
  dsimp only
  refine ⟨le_max_left _ _, le_max_left _ _, min_le_left _ _, min_le_left _ _, ?_, ?_, ?_, ?_⟩
  · have hmax := le_max_right (0 : ℤ) gx
    omega
  · have hmin := min_le_right ((W : ℤ)) (gx + (w : ℤ))
    omega
  · have hmax := le_max_right (0 : ℤ) gy
    omega
  · have hmin := min_le_right ((H : ℤ)) (gy + (h : ℤ))
    omega

/-- Witness for C10_clip_safety: an empty glyph grid leaves the canvas
unchanged. -/
theorem C10_clip_safety_witness :
    composite 4 4 [[0, 0], [0, 0]] [] 0 0 = [[0, 0], [0, 0]] :=
  (C10_clip_safety 4 4 1 1 0 0 [[0, 0], [0, 0]] []).2.1 (Or.inr rfl)

end TamilLed
